import Mathlib

/-!
# go-torblock: a verification development

A shallow embedding of `torblock.go` (package `torblock`): the relay-list
parser inside `fetchList`, the scheduler tick of `Run`, the membership check
`process` and the middleware adapter `Handler`.

Conventions of the embedding.

* Go strings are `String`: the embedding covers texts that are valid UTF-8,
  where cutting at the space byte and at the space character agree.
  `strings.Split(s, " ")` is embedded as `Split`.
* Calls into the Go standard library whose behaviour is not part of this
  repository (`time.Parse`, `strings.EqualFold`, `net.SplitHostPort`) are
  bundled in a `Lib` record that every definition takes as a parameter.
  `refLib` is one concrete instance used to evaluate examples.
* The network is an input: a `Response` is what `http.Get(checkURL)` and the
  `bufio.Scanner` over the body deliver.
* A Go run-time panic (index out of range) is the result `none`.
* Handler invocations are recorded as a list of `Event`s.
-/

namespace Torblock

/-! ## Data model -/

/-- A `time.Time` at second resolution, in UTC. -/
structure Time where
  year : Nat
  month : Nat
  day : Nat
  hour : Nat
  minute : Nat
  second : Nat
  deriving DecidableEq, Repr

/-- The zero value `time.Time{}`: January 1, year 1, 00:00:00 UTC. -/
def Time.zero : Time := ⟨1, 1, 1, 0, 0, 0⟩

structure ExitAddress where
  IPAddress : String
  Time : Time
  deriving DecidableEq, Repr

structure TorNode where
  ExitNode : String
  Published : Time
  LastStatus : Time
  ExitAddress : ExitAddress
  deriving DecidableEq, Repr

/-- The zero value `TorNode{}`. -/
def TorNode.empty : TorNode := ⟨"", Time.zero, Time.zero, ⟨"", Time.zero⟩⟩

structure TorNodeList where
  Nodes : List TorNode
  Updated : Time
  deriving DecidableEq, Repr

/-- The zero value `TorNodeList{}`. -/
def TorNodeList.empty : TorNodeList := ⟨[], Time.zero⟩

structure Options where
  UpdateFrequency : Int
  CheckURL : String
  deriving DecidableEq, Repr

/-- The `TorBlock` value; `badHostHandler` is observed through `Event.badHost`. -/
structure TorBlock where
  opt : Options
  NodeList : TorNodeList
  deriving DecidableEq, Repr

/-- The fields of `http.Request` that the package reads. -/
structure Request where
  RemoteAddr : String
  Host : String
  deriving DecidableEq, Repr

/-- Standard-library functions used by the package. -/
structure Lib where
  /-- Result of `time.Parse(timeFormat, s)`; `none` when it returns an error. -/
  timeParse : String → Option Time
  /-- Result of `strings.EqualFold(s, t)`. -/
  equalFold : String → String → Bool
  /-- Result `(host, port)` of `net.SplitHostPort`; `none` when it returns an error. -/
  splitHostPort : String → Option (String × String)

/-- What `http.Get(checkURL)` and the scanner over the body deliver. -/
inductive Response where
  /-- Transport failure: `http.Get` returned a non-nil error. -/
  | transportError (e : String)
  /-- The lines yielded by `contents.Scan()` and the final `contents.Err()`. -/
  | body (lines : List String) (scanErr : Option String)
  deriving DecidableEq, Repr

/-- Observable calls made while serving a request. -/
inductive Event where
  /-- A call of `fetchList()`. -/
  | fetch
  /-- The call `t.badHostHandler.ServeHTTP(w, r)`. -/
  | badHost
  /-- The inner handler `h.ServeHTTP(w, r)` (or `next(w, r)`). -/
  | inner
  deriving DecidableEq, Repr

/-! ## `strings.Split(s, " ")` -/

/-- Split a character list at every space; the result is never empty. -/
def splitSpace : List Char → List (List Char)
  | [] => [[]]
  | c :: cs =>
    if c = ' ' then [] :: splitSpace cs
    else
      match splitSpace cs with
      | [] => [[c]]
      | tok :: toks => (c :: tok) :: toks

/-- The call `strings.Split(s, " ")`. -/
def Split (s : String) : List String :=
  (splitSpace s.data).map String.mk

/-! ## The parsing loop of `fetchList` -/

/-- The first result of `time.Parse(timeFormat, a+" "+b)`: the library returns
`time.Time{}` together with the error when parsing fails. -/
def parseTime (L : Lib) (a b : String) : Time :=
  (L.timeParse (a ++ " " ++ b)).getD Time.zero

/-- The `switch parts[0]` of the loop body on one line. `none` is the
index-out-of-range panic of `parts[k]`. -/
def dispatch (L : Lib) (node : TorNode) (line : String) : Option TorNode :=
  let parts := Split line
  match parts[0]? with
  | none => none
  | some tag =>
    if tag = "ExitNode" then
      match parts[1]? with
      | some p1 => some { node with ExitNode := p1 }
      | none => none
    else if tag = "Published" then
      match parts[1]?, parts[2]? with
      | some p1, some p2 => some { node with Published := parseTime L p1 p2 }
      | _, _ => none
    else if tag = "LastStatus" then
      match parts[1]?, parts[2]? with
      | some p1, some p2 => some { node with LastStatus := parseTime L p1 p2 }
      | _, _ => none
    else if tag = "ExitAddress" then
      match parts[1]?, parts[2]?, parts[3]? with
      | some p1, some p2, some p3 =>
        some { node with ExitAddress := ⟨p1, parseTime L p2 p3⟩ }
      | _, _, _ => none
    else some node

/-- The `for contents.Scan()` loop: `i` is the line counter, `node` the record
under construction, `nodes` is `list.Nodes`. -/
def scanLoop (L : Lib) : List String → Nat → TorNode → List TorNode →
    Option (List TorNode × TorNode)
  | [], _, node, nodes => some (nodes, node)
  | line :: rest, i, node, nodes =>
    let nodes1 := if i % 4 = 0 ∧ node.ExitNode ≠ "" then nodes ++ [node] else nodes
    let node1 := if i % 4 = 0 then TorNode.empty else node
    match dispatch L node1 line with
    | none => none
    | some node2 => scanLoop L rest (i + 1) node2 nodes1

/-- The function `fetchList`: the pair `(list, err)` it returns, or `none` when
it panics. -/
def fetchList (L : Lib) : Response → Option (TorNodeList × Option String)
  | .transportError e => some (TorNodeList.empty, some e)
  | .body lines scanErr =>
    match scanLoop L lines 0 TorNode.empty [] with
    | none => none
    | some (nodes, node) =>
      match scanErr with
      | some e => some (TorNodeList.empty, some e)
      | none => some (⟨nodes ++ [node], Time.zero⟩, none)

/-- The parser on a document given as its list of lines: `fetchList` on a
response whose scanner ends without error. -/
def parseDocument (L : Lib) (lines : List String) : Option (TorNodeList × Option String) :=
  fetchList L (.body lines none)

/-! ## The scheduler tick of `Run` -/

/-- One firing of `ticker.C` inside the goroutine of `Run`: the new `TorBlock`,
or `none` when `fetchList` panics. -/
def Run.tick (L : Lib) (t : TorBlock) (resp : Response) : Option TorBlock :=
  match fetchList L resp with
  | none => none
  | some (list, _) => some { t with NodeList := list }

/-! ## `process` and `Handler` -/

/-- The host of `net.SplitHostPort(r.RemoteAddr)` with its error ignored: the
library returns empty strings together with the error. -/
def hostOf (L : Lib) (r : Request) : String :=
  match L.splitHostPort r.RemoteAddr with
  | some (host, _) => host
  | none => ""

/-- The `for _, node := range t.NodeList.Nodes` loop: the value of `isGoodHost`
when the loop ends. -/
def isGoodHost (L : Lib) (host : String) : List TorNode → Bool
  | [] => true
  | node :: rest =>
    if L.equalFold node.ExitAddress.IPAddress host then false
    else isGoodHost L host rest

/-- What `process` leaves behind: the `TorBlock`, the calls made, and the
returned error (`none` is `nil`). -/
structure Served where
  t : TorBlock
  events : List Event
  err : Option String
  deriving DecidableEq, Repr

/-- The method `process`; `resp` is what the network delivers if `fetchList`
is called. `none` when `fetchList` panics. -/
def process (L : Lib) (t : TorBlock) (resp : Response) (r : Request) : Option Served :=
  let refreshed : Option (TorBlock × List Event) :=
    if t.NodeList.Nodes.length = 0 then
      match fetchList L resp with
      | none => none
      | some (list, _) => some ({ t with NodeList := list }, [Event.fetch])
    else some (t, [])
  match refreshed with
  | none => none
  | some (t1, ev) =>
    if t1.NodeList.Nodes.length > 0 ∧ isGoodHost L (hostOf L r) t1.NodeList.Nodes = false then
      some ⟨t1, ev ++ [Event.badHost], some ("Bad host name: " ++ r.Host)⟩
    else some ⟨t1, ev, none⟩

/-- The handler returned by `Handler(h)` applied to one request. -/
def Handler (L : Lib) (t : TorBlock) (resp : Response) (r : Request) :
    Option (TorBlock × List Event) :=
  match process L t resp r with
  | none => none
  | some s =>
    match s.err with
    | some _ => some (s.t, s.events)
    | none => some (s.t, s.events ++ [Event.inner])

/-! ## A reference instance of the library -/

/-- Decimal value of a list of digits. -/
def digitsValue (cs : List Char) : Nat :=
  cs.foldl (fun n c => 10 * n + (c.toNat - 48)) 0

/-- Days in a month of the proleptic Gregorian calendar. -/
def daysIn (month year : Nat) : Nat :=
  if month = 2 then
    if year % 4 = 0 ∧ (year % 100 ≠ 0 ∨ year % 400 = 0) then 29 else 28
  else if month = 4 ∨ month = 6 ∨ month = 9 ∨ month = 11 then 30
  else 31

/-- A strict reading of the layout `2006-01-02 15:04:05`: exactly the
19-character form `YYYY-MM-DD HH:MM:SS` with every field in range. (The Go
parser also takes a one-digit hour and a fraction after the seconds; the
theorems below hold for every `Lib`.) -/
def refTimeParse (s : String) : Option Time :=
  let cs := s.data
  let at_ (i : Nat) : Char := cs.getD i ' '
  let digs := [0, 1, 2, 3, 5, 6, 8, 9, 11, 12, 14, 15, 17, 18]
  if cs.length = 19 ∧ at_ 4 = '-' ∧ at_ 7 = '-' ∧ at_ 10 = ' ' ∧ at_ 13 = ':' ∧ at_ 16 = ':'
      ∧ digs.all (fun i => (at_ i).isDigit) = true then
    let t : Time :=
      ⟨digitsValue [at_ 0, at_ 1, at_ 2, at_ 3], digitsValue [at_ 5, at_ 6],
        digitsValue [at_ 8, at_ 9], digitsValue [at_ 11, at_ 12],
        digitsValue [at_ 14, at_ 15], digitsValue [at_ 17, at_ 18]⟩
    if 1 ≤ t.month ∧ t.month ≤ 12 ∧ 1 ≤ t.day ∧ t.day ≤ daysIn t.month t.year
        ∧ t.hour < 24 ∧ t.minute < 60 ∧ t.second < 60 then some t
    else none
  else none

/-- Case folding of ASCII letters. -/
def foldASCII (c : Char) : Char :=
  if 'A' ≤ c ∧ c ≤ 'Z' then Char.ofNat (c.toNat + 32) else c

/-- Equality up to the case of ASCII letters. -/
def refEqualFold (s t : String) : Bool :=
  s.data.map foldASCII == t.data.map foldASCII

/-- Index of the last occurrence of `c`. -/
def lastIndexOf (c : Char) : List Char → Option Nat
  | [] => none
  | x :: xs =>
    match lastIndexOf c xs with
    | some i => some (i + 1)
    | none => if x = c then some 0 else none

/-- Index of the first occurrence of `c`. -/
def firstIndexOf (c : Char) : List Char → Option Nat
  | [] => none
  | x :: xs => if x = c then some 0 else (firstIndexOf c xs).map (· + 1)

/-- The splitting rule of `net.SplitHostPort`: the port follows the last
colon; a host in brackets ends right before that colon; no other colon,
`[` or `]` is allowed. -/
def refSplitHostPort (hostport : String) : Option (String × String) :=
  let s := hostport.data
  match lastIndexOf ':' s with
  | none => none
  | some i =>
    if s.head? = some '[' then
      match firstIndexOf ']' s with
      | none => none
      | some close =>
        if close + 1 = i then
          if '[' ∈ s.drop 1 ∨ ']' ∈ s.drop (close + 1) then none
          else some (String.mk ((s.take close).drop 1), String.mk (s.drop (i + 1)))
        else none
    else
      if ':' ∈ s.take i then none
      else if '[' ∈ s ∨ ']' ∈ s then none
      else some (String.mk (s.take i), String.mk (s.drop (i + 1)))

/-- The reference library instance. -/
def refLib : Lib := ⟨refTimeParse, refEqualFold, refSplitHostPort⟩

/-! ## Specification-side definitions and sample data -/

/-- A line with too few space-separated tokens for its tag. -/
def tooFewTokens (line : String) : Prop :=
  ((Split line).head? = some "ExitNode" ∧ (Split line).length < 2) ∨
  (((Split line).head? = some "Published" ∨ (Split line).head? = some "LastStatus")
    ∧ (Split line).length < 3) ∨
  ((Split line).head? = some "ExitAddress" ∧ (Split line).length < 4)

instance : DecidablePred tooFewTokens := fun line => by
  unfold tooFewTokens; infer_instance

/-- The record accumulated from a run of lines, starting from `node`. -/
def applyLines (L : Lib) : TorNode → List String → Option TorNode
  | node, [] => some node
  | node, line :: rest =>
    match dispatch L node line with
    | none => none
    | some node1 => applyLines L node1 rest

/-- The document cut at every fourth line. -/
def groups4 : List String → List (List String)
  | [] => []
  | a :: b :: c :: d :: rest => [a, b, c, d] :: groups4 rest
  | short => [short]

/-- The lines after the last 4-line boundary. -/
def lastGroup (lines : List String) : List String :=
  lines.drop (4 * ((lines.length - 1) / 4))

/-- The record of one group, started from the empty record. -/
def groupRecord (L : Lib) (g : List String) : Option TorNode :=
  applyLines L TorNode.empty g

/-- The record of a group as the boundary check lets it through. -/
def boundaryRecord (L : Lib) (g : List String) : Option TorNode :=
  (groupRecord L g).filter (fun n => decide (n.ExitNode ≠ ""))

/-- What the boundary check appends for the record accumulated so far. -/
def flush (node : TorNode) : List TorNode :=
  if node.ExitNode ≠ "" then [node] else []

/-- One well-formed 4-line block of the listing. -/
structure RelayBlock where
  id : String
  pubDate : String
  pubTime : String
  statusDate : String
  statusTime : String
  ip : String
  seenDate : String
  seenTime : String
  deriving DecidableEq, Repr

/-- The four lines of a block. -/
def RelayBlock.lines (b : RelayBlock) : List String :=
  [ "ExitNode" ++ " " ++ b.id,
    "Published" ++ " " ++ b.pubDate ++ " " ++ b.pubTime,
    "LastStatus" ++ " " ++ b.statusDate ++ " " ++ b.statusTime,
    "ExitAddress" ++ " " ++ b.ip ++ " " ++ b.seenDate ++ " " ++ b.seenTime ]

/-- The identifier and address of a record. -/
def TorNode.key (n : TorNode) : String × String :=
  (n.ExitNode, n.ExitAddress.IPAddress)

/-- A line that sets no non-empty exit-node identifier: its tag is not
`ExitNode`, or its second token is empty. -/
def setsNoIdentifier (line : String) : Prop :=
  (Split line).head? = some "ExitNode" → (Split line).getD 1 "" = ""

instance : DecidablePred setsNoIdentifier := fun line => by
  unfold setsNoIdentifier; infer_instance

/-- The block of the four sample lines. -/
def sampleRelayBlock : RelayBlock :=
  ⟨"ABC123", "2023-01-01", "00:00:00", "2023-01-01", "01:00:00", "1.2.3.4",
    "2023-01-01", "02:00:00"⟩

/-- The four sample lines. -/
def sampleDocument : List String :=
  [ "ExitNode ABC123", "Published 2023-01-01 00:00:00", "LastStatus 2023-01-01 01:00:00",
    "ExitAddress 1.2.3.4 2023-01-01 02:00:00" ]

/-- The record of the four sample lines. -/
def sampleNode : TorNode :=
  ⟨"ABC123", ⟨2023, 1, 1, 0, 0, 0⟩, ⟨2023, 1, 1, 1, 0, 0⟩, ⟨"1.2.3.4", ⟨2023, 1, 1, 2, 0, 0⟩⟩⟩

/-- A `TorBlock` as `New(Options{})` leaves it. -/
def newTorBlock : TorBlock := ⟨⟨0, ""⟩, TorNodeList.empty⟩

/-- A `TorBlock` holding the sample record. -/
def loadedTorBlock : TorBlock := ⟨⟨0, ""⟩, ⟨[sampleNode], Time.zero⟩⟩

/-- A `TorBlock` holding one record with an upper-case IPv6 address. -/
def ipv6TorBlock : TorBlock :=
  ⟨⟨0, ""⟩, ⟨[⟨"DEF456", Time.zero, Time.zero, ⟨"FE80::1", Time.zero⟩⟩], Time.zero⟩⟩

/-- A request from `[fe80::1]:443`. -/
def ipv6Request : Request := ⟨"[fe80::1]:443", "example.org"⟩

/-- A request from the same interface, its address written in full. -/
def ipv6LongRequest : Request := ⟨"[fe80:0:0:0:0:0:0:1]:443", "example.org"⟩

/-- A request from `1.2.3.4:5555`. -/
def listedRequest : Request := ⟨"1.2.3.4:5555", "example.org"⟩

/-- A request from `5.6.7.8:5555`. -/
def unlistedRequest : Request := ⟨"5.6.7.8:5555", "example.org"⟩

/-- The sample lines followed by a fifth line that starts a second group. -/
def fiveLineDocument : List String := sampleDocument ++ ["ExitAddress 9.9.9.9 1 2"]

/-- Two groups, the first of which names no relay. -/
def anonymousGroupDocument : List String :=
  [ "Published 2023-01-01 00:00:00", "ExitAddress 7.7.7.7 2023-01-01 02:00:00", "", "#" ]
    ++ sampleDocument

/-- The value of an arbitrary integer as an `int64` after wrap-around. -/
def wrapInt64 (x : Int) : Int :=
  (x + 2 ^ 63) % 2 ^ 64 - 2 ^ 63

/-- The constant `time.Second`, a `time.Duration` in nanoseconds. -/
def Second : Int := 1000000000

/-- The value `frequency` computed by `Run`, an `int64` count of nanoseconds:
`time.Duration(updateFrequency) * time.Second`. -/
def Run.frequency (opt : Options) : Int :=
  let updateFrequency : Int := if opt.UpdateFrequency > 0 then opt.UpdateFrequency else 3600
  wrapInt64 (updateFrequency * Second)

/-- The method `HandlerFuncWithNext` on one request; `hasNext` tells whether
`next != nil`. -/
def HandlerFuncWithNext (L : Lib) (t : TorBlock) (resp : Response) (r : Request)
    (hasNext : Bool) : Option (TorBlock × List Event) :=
  match process L t resp r with
  | none => none
  | some s =>
    match s.err with
    | some _ => some (s.t, s.events)
    | none => if hasNext then some (s.t, s.events ++ [Event.inner]) else some (s.t, s.events)

/-- One thing that happens to a `TorBlock`: a firing of the ticker, or a
request served through `Handler`. Each carries what the network would deliver
to a `fetchList` call made at that moment. -/
inductive Step where
  | tick (resp : Response)
  | request (resp : Response) (r : Request)
  deriving DecidableEq, Repr

/-- The effect of one step: the new `TorBlock` and the calls made while serving
the request (none for a tick). `none` when `fetchList` panics. -/
def Step.apply (L : Lib) (t : TorBlock) : Step → Option (TorBlock × List Event)
  | .tick resp =>
    match Run.tick L t resp with
    | none => none
    | some t1 => some (t1, [])
  | .request resp r => Handler L t resp r

/-- A sequence of steps on one `TorBlock`: the final `TorBlock` and, step by
step, the calls made. -/
def runSteps (L : Lib) : TorBlock → List Step → Option (TorBlock × List (List Event))
  | t, [] => some (t, [])
  | t, s :: rest =>
    match Step.apply L t s with
    | none => none
    | some (t1, ev) =>
      match runSteps L t1 rest with
      | none => none
      | some (t2, evs) => some (t2, ev :: evs)

/-- A line whose first token is none of the four tags. -/
def unknownTag (line : String) : Prop :=
  (Split line).head? ≠ some "ExitNode" ∧ (Split line).head? ≠ some "Published"
    ∧ (Split line).head? ≠ some "LastStatus" ∧ (Split line).head? ≠ some "ExitAddress"

instance : DecidablePred unknownTag := fun line => by
  unfold unknownTag; infer_instance

/-- A request whose `RemoteAddr` has no port. -/
def portlessRequest : Request := ⟨"1.2.3.4", "example.org"⟩

/-- A `TorBlock` holding the one record that the empty document yields. -/
def blankTorBlock : TorBlock := ⟨⟨0, ""⟩, ⟨[TorNode.empty], Time.zero⟩⟩

/-- A listing cut off in the middle of its second line. -/
def truncatedDocument : List String := ["ExitNode ABC123", "Published 2023-01-01"]

/-! ## Lemmas -/

theorem splitSpace_ne_nil (cs : List Char) : splitSpace cs ≠ [] := by
  induction cs with
  | nil => simp [splitSpace]
  | cons c cs ih =>
    unfold splitSpace
    split_ifs
    · simp
    · split <;> simp

theorem splitSpace_append_space (a b : List Char) :
    splitSpace (a ++ ' ' :: b) = splitSpace a ++ splitSpace b := by
  induction a with
  | nil => simp [splitSpace]
  | cons c cs ih =>
    have hne := splitSpace_ne_nil cs
    by_cases hc : c = ' '
    · simp [splitSpace, hc, ih]
    · cases h : splitSpace cs with
      | nil => exact absurd h hne
      | cons tok toks => simp [splitSpace, hc, ih, h]

theorem splitSpace_of_not_mem (a : List Char) (h : ' ' ∉ a) : splitSpace a = [a] := by
  induction a with
  | nil => simp [splitSpace]
  | cons c cs ih =>
    have hc : c ≠ ' ' := fun e => h (by simp [e])
    have hcs : ' ' ∉ cs := fun e => h (by simp [e])
    simp [splitSpace, hc, ih hcs]

theorem Split_ne_nil (s : String) : Split s ≠ [] := by
  simp [Split, splitSpace_ne_nil]

theorem Split_append_space (a b : String) : Split (a ++ " " ++ b) = Split a ++ Split b := by
  have h : (a ++ " " ++ b).data = a.data ++ ' ' :: b.data := by
    simp [String.data_append]
  simp [Split, h, splitSpace_append_space]

theorem Split_of_spaceFree (a : String) (h : ' ' ∉ a.data) : Split a = [a] := by
  simp [Split, splitSpace_of_not_mem a.data h]

theorem dispatch_eq_none_iff (L : Lib) (node : TorNode) (line : String) :
    dispatch L node line = none ↔ tooFewTokens line := by
  have hne := Split_ne_nil line
  unfold dispatch tooFewTokens
  generalize Split line = parts at hne ⊢
  rcases parts with _ | ⟨a, _ | ⟨b, _ | ⟨c, _ | ⟨d, rest⟩⟩⟩⟩
  · exact absurd rfl hne
  all_goals
    by_cases h1 : a = "ExitNode" <;> by_cases h2 : a = "Published" <;>
    by_cases h3 : a = "LastStatus" <;> by_cases h4 : a = "ExitAddress" <;>
    simp_all

theorem dispatch_isSome_iff (L : Lib) (node : TorNode) (line : String) :
    (dispatch L node line).isSome ↔ ¬ tooFewTokens line := by
  rw [← dispatch_eq_none_iff L node line]
  cases dispatch L node line <;> simp

theorem scanLoop_boundary (L : Lib) (line : String) (rest : List String) (i : Nat)
    (node : TorNode) (nodes : List TorNode) (h : i % 4 = 0) :
    scanLoop L (line :: rest) i node nodes =
      match dispatch L TorNode.empty line with
      | none => none
      | some n2 => scanLoop L rest (i + 1) n2 (nodes ++ flush node) := by
  by_cases hid : node.ExitNode = "" <;> simp [scanLoop, flush, h, hid]

theorem scanLoop_inner (L : Lib) (line : String) (rest : List String) (i : Nat)
    (node : TorNode) (nodes : List TorNode) (h : i % 4 ≠ 0) :
    scanLoop L (line :: rest) i node nodes =
      match dispatch L node line with
      | none => none
      | some n2 => scanLoop L rest (i + 1) n2 nodes := by
  simp [scanLoop, h]

theorem scanLoop_run (L : Lib) (rest : List String) (nodes : List TorNode) :
    ∀ (g : List String) (i : Nat) (node : TorNode), i % 4 ≠ 0 → i % 4 + g.length ≤ 4 →
      scanLoop L (g ++ rest) i node nodes =
        match applyLines L node g with
        | none => none
        | some n => scanLoop L rest (i + g.length) n nodes
  | [], i, node, _, _ => by simp [applyLines]
  | line :: g, i, node, h0, hlen => by
    simp only [List.length_cons] at hlen
    rw [List.cons_append, scanLoop_inner L line (g ++ rest) i node nodes h0]
    cases hd : dispatch L node line with
    | none => simp [applyLines, hd]
    | some n2 =>
      by_cases hg : g = []
      · subst hg; simp [applyLines, hd]
      · have hpos : 0 < g.length := List.length_pos.mpr hg
        have h1 : (i + 1) % 4 ≠ 0 := by omega
        have h2 : (i + 1) % 4 + g.length ≤ 4 := by omega
        simp only [applyLines, hd, List.length_cons]
        rw [scanLoop_run L rest nodes g (i + 1) n2 h1 h2]
        have e : i + 1 + g.length = i + (g.length + 1) := by omega
        rw [e]

theorem scanLoop_group (L : Lib) (line : String) (g rest : List String) (i : Nat)
    (node : TorNode) (nodes : List TorNode) (h : i % 4 = 0) (hlen : g.length ≤ 3) :
    scanLoop L (line :: g ++ rest) i node nodes =
      match groupRecord L (line :: g) with
      | none => none
      | some n => scanLoop L rest (i + (g.length + 1)) n (nodes ++ flush node) := by
  rw [List.cons_append, scanLoop_boundary L line (g ++ rest) i node nodes h]
  cases hd : dispatch L TorNode.empty line with
  | none => simp [groupRecord, applyLines, hd]
  | some n2 =>
    by_cases hg : g = []
    · subst hg; simp [groupRecord, applyLines, hd]
    · have hpos : 0 < g.length := List.length_pos.mpr hg
      have h1 : (i + 1) % 4 ≠ 0 := by omega
      have h2 : (i + 1) % 4 + g.length ≤ 4 := by omega
      simp only [groupRecord, applyLines, hd]
      rw [scanLoop_run L rest (nodes ++ flush node) g (i + 1) n2 h1 h2]
      have e : i + 1 + g.length = i + (g.length + 1) := by omega
      rw [e]

theorem groups4_ne_nil : ∀ (lines : List String), lines ≠ [] → groups4 lines ≠ []
  | [], h => absurd rfl h
  | [_], _ => by simp [groups4]
  | [_, _], _ => by simp [groups4]
  | [_, _, _], _ => by simp [groups4]
  | _ :: _ :: _ :: _ :: _, _ => by simp [groups4]

theorem groups4_getLastD : ∀ (lines : List String),
    (groups4 lines).getLastD [] = lastGroup lines
  | [] => by simp [groups4, lastGroup]
  | [_] => by simp [groups4, lastGroup]
  | [_, _] => by simp [groups4, lastGroup]
  | [_, _, _] => by simp [groups4, lastGroup]
  | a :: b :: c :: d :: rest => by
    by_cases hr : rest = []
    · subst hr; simp [groups4, lastGroup]
    · have ih := groups4_getLastD rest
      have hne := groups4_ne_nil rest hr
      have hpos : 0 < rest.length := List.length_pos.mpr hr
      have e : 4 * ((rest.length + 1 + 1 + 1 + 1 - 1) / 4) = 4 * ((rest.length - 1) / 4) + 4 := by
        omega
      rw [groups4]
      cases hg : groups4 rest with
      | nil => exact absurd hg hne
      | cons g gs =>
        rw [hg] at ih
        simp only [List.getLastD_cons] at ih ⊢
        simp only [lastGroup, List.length_cons, e, List.drop_succ_cons] at ih ⊢
        exact ih

theorem filterMap_boundaryRecord_single (L : Lib) (g : List String) (rec : TorNode)
    (h : groupRecord L g = some rec) (gs : List (List String)) :
    (g :: gs).filterMap (boundaryRecord L) = flush rec ++ gs.filterMap (boundaryRecord L) := by
  by_cases hid : rec.ExitNode = "" <;>
    simp [List.filterMap_cons, boundaryRecord, h, Option.filter, flush, hid]

theorem scanLoop_groups (L : Lib) : ∀ (lines : List String) (i : Nat) (node : TorNode)
    (nodes ns : List TorNode) (n : TorNode), i % 4 = 0 → lines ≠ [] →
    scanLoop L lines i node nodes = some (ns, n) →
    ns = nodes ++ flush node ++ (groups4 lines).dropLast.filterMap (boundaryRecord L)
      ∧ groupRecord L ((groups4 lines).getLastD []) = some n
  | [], _, _, _, _, _, _, hne, _ => absurd rfl hne
  | [a], i, node, nodes, ns, n, h, _, hs => by
    have hg := scanLoop_group L a [] [] i node nodes h (by simp)
    simp only [List.nil_append, List.append_nil] at hg
    rw [hg] at hs
    cases hrec : groupRecord L [a] with
    | none => simp [hrec] at hs
    | some rec =>
      simp only [hrec, scanLoop, Option.some.injEq, Prod.mk.injEq] at hs
      simp [groups4, hrec, hs.1.symm, hs.2.symm]
  | [a, b], i, node, nodes, ns, n, h, _, hs => by
    have hg := scanLoop_group L a [b] [] i node nodes h (by simp)
    simp only [List.cons_append, List.nil_append, List.append_nil] at hg
    rw [hg] at hs
    cases hrec : groupRecord L [a, b] with
    | none => simp [hrec] at hs
    | some rec =>
      simp only [hrec, scanLoop, Option.some.injEq, Prod.mk.injEq] at hs
      simp [groups4, hrec, hs.1.symm, hs.2.symm]
  | [a, b, c], i, node, nodes, ns, n, h, _, hs => by
    have hg := scanLoop_group L a [b, c] [] i node nodes h (by simp)
    simp only [List.cons_append, List.nil_append, List.append_nil] at hg
    rw [hg] at hs
    cases hrec : groupRecord L [a, b, c] with
    | none => simp [hrec] at hs
    | some rec =>
      simp only [hrec, scanLoop, Option.some.injEq, Prod.mk.injEq] at hs
      simp [groups4, hrec, hs.1.symm, hs.2.symm]
  | a :: b :: c :: d :: rest, i, node, nodes, ns, n, h, _, hs => by
    have hg := scanLoop_group L a [b, c, d] rest i node nodes h (by simp)
    simp only [List.cons_append, List.nil_append] at hg
    rw [hg] at hs
    cases hrec : groupRecord L [a, b, c, d] with
    | none => simp [hrec] at hs
    | some rec =>
      simp only [hrec, List.length_cons, List.length_nil] at hs
      by_cases hr : rest = []
      · subst hr
        simp only [scanLoop, Option.some.injEq, Prod.mk.injEq] at hs
        simp [groups4, hrec, hs.1.symm, hs.2.symm]
      · have h4 : (i + (0 + 1 + 1 + 1 + 1)) % 4 = 0 := by omega
        have ih := scanLoop_groups L rest _ rec (nodes ++ flush node) ns n h4 hr hs
        have hne := groups4_ne_nil rest hr
        rw [groups4, List.dropLast_cons_of_ne_nil hne,
          filterMap_boundaryRecord_single L _ rec hrec]
        refine ⟨by rw [ih.1]; simp [List.append_assoc], ?_⟩
        cases hgr : groups4 rest with
        | nil => exact absurd hgr hne
        | cons g gs =>
          rw [hgr] at ih
          simpa using ih.2

theorem scanLoop_eq_none_iff (L : Lib) : ∀ (lines : List String) (i : Nat) (node : TorNode)
    (nodes : List TorNode),
    scanLoop L lines i node nodes = none ↔ ∃ line ∈ lines, tooFewTokens line
  | [], _, _, _ => by simp [scanLoop]
  | line :: rest, i, node, nodes => by
    unfold scanLoop
    simp only []
    split
    · rename_i hd
      rw [dispatch_eq_none_iff] at hd
      simp [hd]
    · rename_i node2 hd
      have hs : ¬ tooFewTokens line := by
        rw [← dispatch_isSome_iff L _ line, hd]; simp
      rw [scanLoop_eq_none_iff L rest]
      simp [hs]

theorem parseDocument_eq_none_iff (L : Lib) (lines : List String) :
    parseDocument L lines = none ↔ ∃ line ∈ lines, tooFewTokens line := by
  rw [← scanLoop_eq_none_iff L lines 0 TorNode.empty []]
  unfold parseDocument fetchList
  cases hs : scanLoop L lines 0 TorNode.empty [] <;> simp [hs]

theorem parseDocument_groups (L : Lib) (lines : List String) (list : TorNodeList)
    (err : Option String) (h : parseDocument L lines = some (list, err)) :
    err = none ∧ list.Updated = Time.zero ∧
      ∃ final, groupRecord L (lastGroup lines) = some final ∧
        list.Nodes = (groups4 lines).dropLast.filterMap (boundaryRecord L) ++ [final] := by
  unfold parseDocument fetchList at h
  cases hs : scanLoop L lines 0 TorNode.empty [] with
  | none => simp [hs] at h
  | some p =>
    obtain ⟨ns, n⟩ := p
    simp only [hs, Option.some.injEq, Prod.mk.injEq] at h
    obtain ⟨hl, he⟩ := h
    subst hl
    refine ⟨he.symm, rfl, n, ?_⟩
    by_cases hne : lines = []
    · subst hne
      simp only [scanLoop, Option.some.injEq, Prod.mk.injEq] at hs
      simp [groups4, lastGroup, groupRecord, applyLines, hs.1.symm, hs.2.symm]
    · have hg := scanLoop_groups L lines 0 TorNode.empty [] ns n rfl hne hs
      rw [groups4_getLastD] at hg
      refine ⟨hg.2, ?_⟩
      rw [hg.1]
      simp [flush, TorNode.empty]

theorem fetchList_error (L : Lib) (resp : Response) (list : TorNodeList) (e : String)
    (h : fetchList L resp = some (list, some e)) : list = TorNodeList.empty := by
  unfold fetchList at h
  split at h
  · simp only [Option.some.injEq, Prod.mk.injEq] at h; exact h.1.symm
  · split at h
    · simp at h
    · split at h
      · simp only [Option.some.injEq, Prod.mk.injEq] at h; exact h.1.symm
      · simp at h

theorem isGoodHost_eq_false_iff (L : Lib) (host : String) : ∀ (nodes : List TorNode),
    isGoodHost L host nodes = false ↔
      ∃ n ∈ nodes, L.equalFold n.ExitAddress.IPAddress host = true
  | [] => by simp [isGoodHost]
  | node :: rest => by
    unfold isGoodHost
    by_cases h : L.equalFold node.ExitAddress.IPAddress host = true
    · simp [h]
    · simp [h, isGoodHost_eq_false_iff L host rest]

theorem process_of_nonempty (L : Lib) (t : TorBlock) (resp : Response) (r : Request)
    (h : t.NodeList.Nodes ≠ []) :
    process L t resp r =
      if isGoodHost L (hostOf L r) t.NodeList.Nodes = false then
        some ⟨t, [Event.badHost], some ("Bad host name: " ++ r.Host)⟩
      else some ⟨t, [], none⟩ := by
  have hlen : t.NodeList.Nodes.length ≠ 0 := by simpa using h
  have hpos : 0 < t.NodeList.Nodes.length := Nat.pos_of_ne_zero hlen
  simp [process, hlen, hpos]

theorem dispatch_exitNode (L : Lib) (node : TorNode) (line id : String) (more : List String)
    (h : Split line = "ExitNode" :: id :: more) :
    dispatch L node line = some { node with ExitNode := id } := by
  simp [dispatch, h]

theorem dispatch_published (L : Lib) (node : TorNode) (line p1 p2 : String)
    (more : List String) (h : Split line = "Published" :: p1 :: p2 :: more) :
    dispatch L node line = some { node with Published := parseTime L p1 p2 } := by
  simp [dispatch, h]

theorem dispatch_lastStatus (L : Lib) (node : TorNode) (line p1 p2 : String)
    (more : List String) (h : Split line = "LastStatus" :: p1 :: p2 :: more) :
    dispatch L node line = some { node with LastStatus := parseTime L p1 p2 } := by
  simp [dispatch, h]

theorem dispatch_exitAddress (L : Lib) (node : TorNode) (line p1 p2 p3 : String)
    (more : List String) (h : Split line = "ExitAddress" :: p1 :: p2 :: p3 :: more) :
    dispatch L node line = some { node with ExitAddress := ⟨p1, parseTime L p2 p3⟩ } := by
  simp [dispatch, h]

theorem dispatch_ExitNode_cases (L : Lib) (node n2 : TorNode) (line : String)
    (h : dispatch L node line = some n2) :
    n2.ExitNode = node.ExitNode ∨
      ∃ id more, Split line = "ExitNode" :: id :: more ∧ n2.ExitNode = id := by
  unfold dispatch at h
  generalize Split line = parts at h ⊢
  rcases parts with _ | ⟨a, _ | ⟨b, _ | ⟨c, _ | ⟨d, rest⟩⟩⟩⟩
  · simp at h
  all_goals
    by_cases h1 : a = "ExitNode" <;> by_cases h2 : a = "Published" <;>
    by_cases h3 : a = "LastStatus" <;> by_cases h4 : a = "ExitAddress" <;>
    simp_all <;> (subst h; simp)

theorem applyLines_no_identifier (L : Lib) : ∀ (g : List String) (node n : TorNode),
    node.ExitNode = "" → (∀ line ∈ g, setsNoIdentifier line) →
    applyLines L node g = some n → n.ExitNode = ""
  | [], node, n, h0, _, h => by
    simp only [applyLines, Option.some.injEq] at h
    rw [← h]; exact h0
  | line :: rest, node, n, h0, hno, h => by
    unfold applyLines at h
    cases hd : dispatch L node line with
    | none => simp [hd] at h
    | some n2 =>
      simp only [hd] at h
      have h2 : n2.ExitNode = "" := by
        rcases dispatch_ExitNode_cases L node n2 line hd with e | ⟨id, more, hs, e⟩
        · rw [e, h0]
        · have hl := hno line (by simp) (by simp [hs])
          rw [e]; simpa [hs] using hl
      exact applyLines_no_identifier L rest n2 n h2
        (fun l hl => hno l (List.mem_cons_of_mem _ hl)) h

theorem two_tokens (d t : String) : ∃ p1 p2 more, Split d ++ Split t = p1 :: p2 :: more := by
  have hd := Split_ne_nil d
  have ht := Split_ne_nil t
  cases h1 : Split d with
  | nil => exact absurd h1 hd
  | cons x xs =>
    cases h2 : Split t with
    | nil => exact absurd h2 ht
    | cons y ys =>
      cases xs with
      | nil => exact ⟨x, y, ys, rfl⟩
      | cons x2 xs2 => exact ⟨x, x2, xs2 ++ y :: ys, rfl⟩

theorem groupRecord_block (L : Lib) (b : RelayBlock) (hid : ' ' ∉ b.id.data)
    (hip : ' ' ∉ b.ip.data) :
    ∃ rec, groupRecord L b.lines = some rec ∧ rec.key = (b.id, b.ip) := by
  have e1 : Split ("ExitNode" ++ " " ++ b.id) = "ExitNode" :: b.id :: [] := by
    rw [Split_append_space, Split_of_spaceFree b.id hid]; rfl
  obtain ⟨p1, p2, m2, h2⟩ := two_tokens b.pubDate b.pubTime
  have e2 : Split ("Published" ++ " " ++ b.pubDate ++ " " ++ b.pubTime)
      = "Published" :: p1 :: p2 :: m2 := by
    rw [Split_append_space, Split_append_space, List.append_assoc, h2]; rfl
  obtain ⟨q1, q2, m3, h3⟩ := two_tokens b.statusDate b.statusTime
  have e3 : Split ("LastStatus" ++ " " ++ b.statusDate ++ " " ++ b.statusTime)
      = "LastStatus" :: q1 :: q2 :: m3 := by
    rw [Split_append_space, Split_append_space, List.append_assoc, h3]; rfl
  obtain ⟨r1, r2, m4, h4⟩ := two_tokens b.seenDate b.seenTime
  have e4 : Split ("ExitAddress" ++ " " ++ b.ip ++ " " ++ b.seenDate ++ " " ++ b.seenTime)
      = "ExitAddress" :: b.ip :: r1 :: r2 :: m4 := by
    rw [Split_append_space, Split_append_space, Split_append_space,
      Split_of_spaceFree b.ip hip, List.append_assoc, List.append_assoc, h4]; rfl
  refine ⟨⟨b.id, parseTime L p1 p2, parseTime L q1 q2, ⟨b.ip, parseTime L r1 r2⟩⟩, ?_, rfl⟩
  simp only [groupRecord, RelayBlock.lines, applyLines,
    dispatch_exitNode L _ _ _ _ e1, dispatch_published L _ _ _ _ _ e2,
    dispatch_lastStatus L _ _ _ _ _ e3, dispatch_exitAddress L _ _ _ _ _ _ e4]

theorem scanLoop_blocks (L : Lib) : ∀ (blocks : List RelayBlock) (i : Nat) (node : TorNode)
    (nodes : List TorNode), i % 4 = 0 → node.ExitNode ≠ "" →
    (∀ b ∈ blocks, b.id ≠ "" ∧ ' ' ∉ b.id.data ∧ ' ' ∉ b.ip.data) →
    ∃ ns n recs, scanLoop L (blocks.flatMap RelayBlock.lines) i node nodes = some (ns, n)
      ∧ ns ++ [n] = nodes ++ node :: recs
      ∧ recs.map TorNode.key = blocks.map (fun b => (b.id, b.ip))
  | [], i, node, nodes, _, _, _ => ⟨nodes, node, [], by simp [scanLoop], rfl, rfl⟩
  | b :: bs, i, node, nodes, h, hid, hwf => by
    obtain ⟨hb1, hb2, hb3⟩ := hwf b (by simp)
    obtain ⟨rec, hrec, hkey⟩ := groupRecord_block L b hb2 hb3
    have hrid : rec.ExitNode ≠ "" := by
      have : rec.ExitNode = b.id := congrArg Prod.fst hkey
      rw [this]; exact hb1
    have h4 : (i + (0 + 1 + 1 + 1 + 1)) % 4 = 0 := by omega
    obtain ⟨ns, n, recs, hs, hout, hkeys⟩ :=
      scanLoop_blocks L bs (i + (0 + 1 + 1 + 1 + 1)) rec (nodes ++ flush node) h4 hrid
        (fun b' hb' => hwf b' (List.mem_cons_of_mem _ hb'))
    refine ⟨ns, n, rec :: recs, ?_, ?_, ?_⟩
    · have hg := scanLoop_group L ("ExitNode" ++ " " ++ b.id)
        [ "Published" ++ " " ++ b.pubDate ++ " " ++ b.pubTime,
          "LastStatus" ++ " " ++ b.statusDate ++ " " ++ b.statusTime,
          "ExitAddress" ++ " " ++ b.ip ++ " " ++ b.seenDate ++ " " ++ b.seenTime ]
        (bs.flatMap RelayBlock.lines) i node nodes h (by simp)
      simp only [RelayBlock.lines] at hrec
      simp only [hrec, List.length_cons, List.length_nil] at hg
      rw [List.flatMap_cons]
      simp only [RelayBlock.lines] at hg hs ⊢
      rw [hg]; exact hs
    · rw [hout]; simp [flush, hid]
    · simp [hkeys, hkey]

theorem groups4_flatten : ∀ (lines : List String), (groups4 lines).flatten = lines
  | [] => by simp [groups4]
  | [_] => by simp [groups4]
  | [_, _] => by simp [groups4]
  | [_, _, _] => by simp [groups4]
  | a :: b :: c :: d :: rest => by
    rw [groups4, List.flatten_cons, groups4_flatten rest]; rfl

theorem groups4_dropLast_length : ∀ (lines : List String),
    ∀ g ∈ (groups4 lines).dropLast, g.length = 4
  | [] => by simp [groups4]
  | [_] => by simp [groups4]
  | [_, _] => by simp [groups4]
  | [_, _, _] => by simp [groups4]
  | a :: b :: c :: d :: rest => by
    intro g hg
    by_cases hr : rest = []
    · subst hr; simp [groups4] at hg
    · rw [groups4, List.dropLast_cons_of_ne_nil (groups4_ne_nil rest hr)] at hg
      rcases List.mem_cons.mp hg with e | hmem
      · rw [e]; rfl
      · exact groups4_dropLast_length rest g hmem

theorem dispatch_unknownTag (L : Lib) (node : TorNode) (line : String)
    (h : unknownTag line) : dispatch L node line = some node := by
  have hne := Split_ne_nil line
  unfold unknownTag at h
  unfold dispatch
  generalize Split line = parts at hne h ⊢
  rcases parts with _ | ⟨a, rest⟩
  · exact absurd rfl hne
  · simp only [List.head?_cons, ne_eq, Option.some.injEq] at h
    simp [h.1, h.2.1, h.2.2.1, h.2.2.2]

theorem scanLoop_set_unknown (L : Lib) (l2 : String) (h2 : unknownTag l2) :
    ∀ (lines : List String) (j i : Nat) (node : TorNode) (nodes : List TorNode),
      (∀ l1, lines[j]? = some l1 → unknownTag l1) →
      scanLoop L (lines.set j l2) i node nodes = scanLoop L lines i node nodes
  | [], _, _, _, _, _ => by simp
  | l1 :: rest, 0, i, node, nodes, h1 => by
    have hl1 : unknownTag l1 := h1 l1 (by simp)
    simp only [List.set_cons_zero, scanLoop, dispatch_unknownTag L _ l1 hl1,
      dispatch_unknownTag L _ l2 h2]
  | l1 :: rest, j + 1, i, node, nodes, h1 => by
    have hrest : ∀ l, rest[j]? = some l → unknownTag l := fun l hl => h1 l (by simpa using hl)
    simp only [List.set_cons_succ, scanLoop]
    split
    · rfl
    · exact scanLoop_set_unknown L l2 h2 rest j _ _ _ hrest

theorem process_events_of_no_error (L : Lib) (t : TorBlock) (resp : Response) (r : Request)
    (s : Served) (h : process L t resp r = some s) (he : s.err = none) :
    s.events = [] ∨ s.events = [Event.fetch] := by
  unfold process at h
  by_cases h0 : t.NodeList.Nodes.length = 0
  · simp only [h0, if_true] at h
    cases hf : fetchList L resp with
    | none => simp [hf] at h
    | some p =>
      obtain ⟨list, e⟩ := p
      simp only [hf] at h
      split_ifs at h
      · simp only [Option.some.injEq] at h
        rw [← h] at he; simp at he
      · simp only [Option.some.injEq] at h
        rw [← h]; simp
  · simp only [h0, if_false] at h
    split_ifs at h
    · simp only [Option.some.injEq] at h
      rw [← h] at he; simp at he
    · simp only [Option.some.injEq] at h
      rw [← h]; simp

theorem dispatch_IPAddress_cases (L : Lib) (node n2 : TorNode) (line : String)
    (h : dispatch L node line = some n2) :
    n2.ExitAddress.IPAddress = node.ExitAddress.IPAddress ∨
      ∃ ip more, Split line = "ExitAddress" :: ip :: more ∧ n2.ExitAddress.IPAddress = ip := by
  unfold dispatch at h
  generalize Split line = parts at h ⊢
  rcases parts with _ | ⟨a, _ | ⟨b, _ | ⟨c, _ | ⟨d, rest⟩⟩⟩⟩
  · simp at h
  all_goals
    by_cases h1 : a = "ExitNode" <;> by_cases h2 : a = "Published" <;>
    by_cases h3 : a = "LastStatus" <;> by_cases h4 : a = "ExitAddress" <;>
    simp_all <;> (subst h; simp)

theorem applyLines_sources (L : Lib) : ∀ (g : List String) (node n : TorNode),
    applyLines L node g = some n →
    (n.ExitNode = node.ExitNode ∨
        ∃ line ∈ g, ∃ more, Split line = "ExitNode" :: n.ExitNode :: more)
    ∧ (n.ExitAddress.IPAddress = node.ExitAddress.IPAddress ∨
        ∃ line ∈ g, ∃ more, Split line = "ExitAddress" :: n.ExitAddress.IPAddress :: more)
  | [], node, n, h => by
    simp only [applyLines, Option.some.injEq] at h
    subst h; exact ⟨Or.inl rfl, Or.inl rfl⟩
  | line :: rest, node, n, h => by
    unfold applyLines at h
    cases hd : dispatch L node line with
    | none => simp [hd] at h
    | some n2 =>
      simp only [hd] at h
      obtain ⟨ih1, ih2⟩ := applyLines_sources L rest n2 n h
      constructor
      · rcases ih1 with e | ⟨l, hl, more, hs⟩
        · rcases dispatch_ExitNode_cases L node n2 line hd with e2 | ⟨id, more, hs, e2⟩
          · exact Or.inl (e.trans e2)
          · exact Or.inr ⟨line, by simp, more, by rw [e, e2]; exact hs⟩
        · exact Or.inr ⟨l, List.mem_cons_of_mem _ hl, more, hs⟩
      · rcases ih2 with e | ⟨l, hl, more, hs⟩
        · rcases dispatch_IPAddress_cases L node n2 line hd with e2 | ⟨ip, more, hs, e2⟩
          · exact Or.inl (e.trans e2)
          · exact Or.inr ⟨line, by simp, more, by rw [e, e2]; exact hs⟩
        · exact Or.inr ⟨l, List.mem_cons_of_mem _ hl, more, hs⟩

theorem mem_of_mem_groups4 (lines g : List String) (line : String)
    (hg : g ∈ groups4 lines) (hl : line ∈ g) : line ∈ lines := by
  rw [← groups4_flatten lines]
  exact List.mem_flatten.mpr ⟨g, hg, hl⟩

theorem lastGroup_mem_groups4 (lines : List String) (h : lines ≠ []) :
    lastGroup lines ∈ groups4 lines := by
  have hne := groups4_ne_nil lines h
  rw [← groups4_getLastD lines]
  cases hg : groups4 lines with
  | nil => exact absurd hg hne
  | cons g gs =>
    rw [List.getLastD_cons]
    have := List.getLast_mem (List.cons_ne_nil g gs)
    rw [List.getLast_eq_getLastD] at this
    simpa using this

theorem wrapInt64_of_range (x : Int) (h1 : -9223372036854775808 ≤ x)
    (h2 : x < 9223372036854775808) : wrapInt64 x = x := by
  unfold wrapInt64
  omega

theorem isGoodHost_empty_host (L : Lib) (hfold0 : L.equalFold "" "" = true)
    (hfold1 : ∀ s, s ≠ "" → L.equalFold s "" = false) (nodes : List TorNode) :
    isGoodHost L "" nodes = false ↔ ∃ n ∈ nodes, n.ExitAddress.IPAddress = "" := by
  rw [isGoodHost_eq_false_iff]
  constructor
  · rintro ⟨n, hn, he⟩
    refine ⟨n, hn, ?_⟩
    by_contra hne
    rw [hfold1 _ hne] at he
    exact absurd he (by simp)
  · rintro ⟨n, hn, he⟩
    exact ⟨n, hn, by rw [he]; exact hfold0⟩

theorem refEqualFold_empty (s : String) (h : s ≠ "") : refEqualFold s "" = false := by
  have hd : s.data ≠ [] := by
    intro e
    apply h
    cases s
    simp_all
  unfold refEqualFold
  cases hs : s.data with
  | nil => exact absurd hs hd
  | cons c cs => rfl

theorem fetchList_updated_zero (L : Lib) (resp : Response) (list : TorNodeList)
    (h : fetchList L resp = some (list, none)) : list.Updated = Time.zero := by
  unfold fetchList at h
  split at h
  · simp at h
  · split at h
    · simp at h
    · split at h
      · simp at h
      · simp only [Option.some.injEq, Prod.mk.injEq, and_true] at h
        rw [← h]

/-- The error-return path of the on-demand fetch: when the list has no records
and `fetchList` returns an error, `process` returns nil after the one fetch,
without calling the rejection handler, and the handler of `Handler(h)` goes on
to call the inner handler; the list stays empty. -/
theorem fail_open_on_fetch_error (L : Lib) (t : TorBlock) (resp : Response) (r : Request)
    (list : TorNodeList) (e : String) (h0 : t.NodeList.Nodes = [])
    (hf : fetchList L resp = some (list, some e)) :
    process L t resp r = some ⟨{ t with NodeList := TorNodeList.empty }, [Event.fetch], none⟩
    ∧ Handler L t resp r
        = some ({ t with NodeList := TorNodeList.empty }, [Event.fetch, Event.inner]) := by
  have hl := fetchList_error L resp list e hf
  subst hl
  have hp : process L t resp r
      = some ⟨{ t with NodeList := TorNodeList.empty }, [Event.fetch], none⟩ := by
    simp [process, h0, hf, TorNodeList.empty]
  exact ⟨hp, by simp [Handler, hp]⟩

/-- The error-return path at a fresh `TorBlock` and a transport failure. -/
theorem fail_open_on_fetch_error_example :
    newTorBlock.NodeList.Nodes = []
    ∧ fetchList refLib (.transportError "timeout") = some (TorNodeList.empty, some "timeout")
    ∧ process refLib newTorBlock (.transportError "timeout") listedRequest
        = some ⟨{ newTorBlock with NodeList := TorNodeList.empty }, [Event.fetch], none⟩
    ∧ Handler refLib newTorBlock (.transportError "timeout") listedRequest
        = some ({ newTorBlock with NodeList := TorNodeList.empty },
            [Event.fetch, Event.inner]) :=
  ⟨by decide, by decide,
    fail_open_on_fetch_error refLib newTorBlock (.transportError "timeout") listedRequest
      TorNodeList.empty "timeout" (by decide) (by decide)⟩

/-! ## Claims -/

/-- C1 (the code at the failing input): a tick whose `fetchList` returns an
error, by transport failure or by scanner error, assigns the empty list it
returned: the one loaded record is gone after the tick. -/
theorem tick_fetch_error_empties_list :
    loadedTorBlock.NodeList.Nodes = [sampleNode]
    ∧ fetchList refLib (.transportError "timeout") = some (TorNodeList.empty, some "timeout")
    ∧ Run.tick refLib loadedTorBlock (.transportError "timeout")
        = some ⟨loadedTorBlock.opt, TorNodeList.empty⟩
    ∧ fetchList refLib (.body sampleDocument (some "token too long"))
        = some (TorNodeList.empty, some "token too long")
    ∧ Run.tick refLib loadedTorBlock (.body sampleDocument (some "token too long"))
        = some ⟨loadedTorBlock.opt, TorNodeList.empty⟩ := by
  decide

/-- C2: a document of N >= 1 well-formed 4-line blocks (identifiers non-empty
and space-free, addresses space-free) has 4N lines, parses without error, and
yields exactly N records, in document order, record k carrying the identifier
and the address of block k. -/
theorem parse_wellformed_blocks (L : Lib) (blocks : List RelayBlock) (hN : blocks ≠ [])
    (hwf : ∀ b ∈ blocks, b.id ≠ "" ∧ ' ' ∉ b.id.data ∧ ' ' ∉ b.ip.data) :
    (blocks.flatMap RelayBlock.lines).length = 4 * blocks.length
    ∧ ∃ list, parseDocument L (blocks.flatMap RelayBlock.lines) = some (list, none)
      ∧ list.Nodes.length = blocks.length
      ∧ list.Nodes.map TorNode.key = blocks.map (fun b => (b.id, b.ip)) := by
  constructor
  · clear hN hwf
    induction blocks with
    | nil => rfl
    | cons b bs ih =>
      rw [List.flatMap_cons, List.length_append, ih]
      simp [RelayBlock.lines]; omega
  · cases blocks with
    | nil => exact absurd rfl hN
    | cons b bs =>
      obtain ⟨hb1, hb2, hb3⟩ := hwf b (by simp)
      obtain ⟨rec, hrec, hkey⟩ := groupRecord_block L b hb2 hb3
      have hrid : rec.ExitNode ≠ "" := by
        have : rec.ExitNode = b.id := congrArg Prod.fst hkey
        rw [this]; exact hb1
      obtain ⟨ns, n, recs, hs, hout, hkeys⟩ :=
        scanLoop_blocks L bs (0 + (0 + 1 + 1 + 1 + 1)) rec ([] ++ flush TorNode.empty)
          (by decide) hrid (fun b' hb' => hwf b' (List.mem_cons_of_mem _ hb'))
      have hg := scanLoop_group L ("ExitNode" ++ " " ++ b.id)
        [ "Published" ++ " " ++ b.pubDate ++ " " ++ b.pubTime,
          "LastStatus" ++ " " ++ b.statusDate ++ " " ++ b.statusTime,
          "ExitAddress" ++ " " ++ b.ip ++ " " ++ b.seenDate ++ " " ++ b.seenTime ]
        (bs.flatMap RelayBlock.lines) 0 TorNode.empty [] rfl (by simp)
      simp only [RelayBlock.lines] at hrec
      simp only [hrec, List.length_cons, List.length_nil] at hg
      have hflush : ([] : List TorNode) ++ flush TorNode.empty = [] := by decide
      rw [hflush] at hs hout hg
      have hscan : scanLoop L ((b :: bs).flatMap RelayBlock.lines) 0 TorNode.empty []
          = some (ns, n) := by
        rw [List.flatMap_cons]
        simp only [RelayBlock.lines] at hg hs ⊢
        rw [hg]; exact hs
      have hmap : (ns ++ [n]).map TorNode.key = (b :: bs).map (fun b => (b.id, b.ip)) := by
        rw [hout]; simp [hkeys, hkey]
      refine ⟨⟨ns ++ [n], Time.zero⟩, ?_, ?_, hmap⟩
      · unfold parseDocument fetchList
        simp only [hscan]
      · have := congrArg List.length hmap
        simpa using this

/-- C2, at the four sample lines: one record with identifier `ABC123` and
address `1.2.3.4`. -/
theorem parse_wellformed_blocks_witness :
    [sampleRelayBlock].flatMap RelayBlock.lines = sampleDocument
    ∧ parseDocument refLib sampleDocument = some (⟨[sampleNode], Time.zero⟩, none)
    ∧ sampleNode.key = ("ABC123", "1.2.3.4")
    ∧ ∃ list, parseDocument refLib ([sampleRelayBlock].flatMap RelayBlock.lines)
          = some (list, none)
        ∧ list.Nodes.length = [sampleRelayBlock].length
        ∧ list.Nodes.map TorNode.key = [sampleRelayBlock].map (fun b => (b.id, b.ip)) :=
  ⟨by decide, by decide, by decide,
    (parse_wellformed_blocks refLib [sampleRelayBlock] (by decide) (by decide)).2⟩

/-- C3: with a non-empty list `process` returns, and it returns a non-nil
error exactly when `strings.EqualFold` holds between the address of some
record and the host extracted from the request; nothing else is compared. -/
theorem process_blocks_iff_equalFold (L : Lib) (t : TorBlock) (resp : Response)
    (r : Request) (h : t.NodeList.Nodes ≠ []) :
    ∃ s, process L t resp r = some s ∧
      (s.err ≠ none ↔
        ∃ n ∈ t.NodeList.Nodes, L.equalFold n.ExitAddress.IPAddress (hostOf L r) = true) := by
  rw [process_of_nonempty L t resp r h, ← isGoodHost_eq_false_iff]
  by_cases hg : isGoodHost L (hostOf L r) t.NodeList.Nodes = false
  · exact ⟨_, if_pos hg, by simp [hg]⟩
  · exact ⟨_, if_neg hg, by simp [hg]⟩

/-- C3, at a record with address `FE80::1`: the host `fe80::1` is blocked,
the same address written in full is not. -/
theorem process_blocks_iff_equalFold_witness :
    ipv6TorBlock.NodeList.Nodes ≠ []
    ∧ hostOf refLib ipv6Request = "fe80::1"
    ∧ process refLib ipv6TorBlock (.transportError "unused") ipv6Request
        = some ⟨ipv6TorBlock, [Event.badHost], some "Bad host name: example.org"⟩
    ∧ process refLib ipv6TorBlock (.transportError "unused") ipv6LongRequest
        = some ⟨ipv6TorBlock, [], none⟩
    ∧ ∃ s, process refLib ipv6TorBlock (.transportError "unused") ipv6Request = some s ∧
        (s.err ≠ none ↔ ∃ n ∈ ipv6TorBlock.NodeList.Nodes,
          refLib.equalFold n.ExitAddress.IPAddress (hostOf refLib ipv6Request) = true) :=
  ⟨by decide, by decide, by decide, by decide,
    process_blocks_iff_equalFold refLib ipv6TorBlock (.transportError "unused") ipv6Request
      (by decide)⟩

/-- C4: with a non-empty list the handler returned by `Handler(h)` makes
exactly one call: the rejection handler alone when the host matches a record,
the inner handler alone when it matches none. The list is left as it was. -/
theorem handler_invokes_exactly_one (L : Lib) (t : TorBlock) (resp : Response)
    (r : Request) (h : t.NodeList.Nodes ≠ []) :
    ((∃ n ∈ t.NodeList.Nodes, L.equalFold n.ExitAddress.IPAddress (hostOf L r) = true) →
        Handler L t resp r = some (t, [Event.badHost]))
    ∧ ((¬ ∃ n ∈ t.NodeList.Nodes, L.equalFold n.ExitAddress.IPAddress (hostOf L r) = true) →
        Handler L t resp r = some (t, [Event.inner])) := by
  rw [← isGoodHost_eq_false_iff]
  unfold Handler
  rw [process_of_nonempty L t resp r h]
  constructor
  · intro hg; simp [hg]
  · intro hg; simp [hg]

/-- C4, at the sample list: a listed caller reaches the rejection handler
only, an unlisted caller the inner handler only. -/
theorem handler_invokes_exactly_one_witness :
    loadedTorBlock.NodeList.Nodes ≠ []
    ∧ Handler refLib loadedTorBlock (.transportError "unused") listedRequest
        = some (loadedTorBlock, [Event.badHost])
    ∧ Handler refLib loadedTorBlock (.transportError "unused") unlistedRequest
        = some (loadedTorBlock, [Event.inner]) :=
  ⟨by decide,
    (handler_invokes_exactly_one refLib loadedTorBlock (.transportError "unused")
      listedRequest (by decide)).1 (by decide),
    (handler_invokes_exactly_one refLib loadedTorBlock (.transportError "unused")
      unlistedRequest (by decide)).2 (by decide)⟩

/-- C5 (the code at the failing input): on a fresh `TorBlock` the on-demand
fetch of a listing cut off after `Published 2023-01-01` panics at `parts[2]`,
with or without a scanner error; the panic passes through `process` and the
handler of `Handler(h)`, so no nil is returned and the inner handler is not
called. When the fetch returns an error instead, the request goes through. -/
theorem on_demand_fetch_panic_reaches_request :
    newTorBlock.NodeList.Nodes = []
    ∧ tooFewTokens "Published 2023-01-01"
    ∧ fetchList refLib (.body truncatedDocument none) = none
    ∧ fetchList refLib (.body truncatedDocument (some "unexpected EOF")) = none
    ∧ process refLib newTorBlock (.body truncatedDocument none) listedRequest = none
    ∧ Handler refLib newTorBlock (.body truncatedDocument none) listedRequest = none
    ∧ Handler refLib newTorBlock (.transportError "timeout") listedRequest
        = some (newTorBlock, [Event.fetch, Event.inner]) := by
  decide

/-- C6: over a document given as its lines, the parse yields nothing at all
exactly when some line has too few tokens for its tag, and it returns a list
with a nil error exactly when no line has; the empty line is no such line. -/
theorem parse_fails_iff_too_few_tokens (L : Lib) (lines : List String) :
    (parseDocument L lines = none ↔ ∃ line ∈ lines, tooFewTokens line)
    ∧ ((∃ list, parseDocument L lines = some (list, none)) ↔
        ¬ ∃ line ∈ lines, tooFewTokens line)
    ∧ ¬ tooFewTokens "" := by
  refine ⟨parseDocument_eq_none_iff L lines, ?_, by decide⟩
  rw [← parseDocument_eq_none_iff L lines]
  cases h : parseDocument L lines with
  | none => simp
  | some p =>
    obtain ⟨list, err⟩ := p
    have := (parseDocument_groups L lines list err h).1
    subst this
    simp

/-- C7: a document that parses yields a non-empty list whose last element is
the record accumulated, from the empty record, over the lines after the last
4-line boundary, whatever its identifier; for 4N+r lines with 1 <= r <= 3
these are the last r lines, for 4N lines with N >= 1 the last four. -/
theorem final_flush_unconditional (L : Lib) (lines : List String) (list : TorNodeList)
    (err : Option String) (h : parseDocument L lines = some (list, err)) :
    list.Nodes ≠ []
    ∧ (∃ final, applyLines L TorNode.empty (lastGroup lines) = some final
        ∧ list.Nodes.getLast? = some final)
    ∧ (∀ N r, 1 ≤ r → r ≤ 3 → lines.length = 4 * N + r →
        lastGroup lines = lines.drop (4 * N))
    ∧ (∀ N, 1 ≤ N → lines.length = 4 * N → lastGroup lines = lines.drop (4 * (N - 1))) := by
  obtain ⟨_, _, final, hfin, hnodes⟩ := parseDocument_groups L lines list err h
  refine ⟨by simp [hnodes], ⟨final, hfin, by simp [hnodes]⟩, ?_, ?_⟩
  · intro N r h1 h3 hlen
    have e : (lines.length - 1) / 4 = N := by omega
    simp [lastGroup, e]
  · intro N h1 hlen
    have e : (lines.length - 1) / 4 = N - 1 := by omega
    simp [lastGroup, e]

/-- C7, at five lines: the fifth line alone makes the trailing record, whose
identifier is empty. -/
theorem final_flush_unconditional_witness :
    parseDocument refLib fiveLineDocument
      = some (⟨[sampleNode, ⟨"", Time.zero, Time.zero, ⟨"9.9.9.9", Time.zero⟩⟩], Time.zero⟩, none)
    ∧ lastGroup fiveLineDocument = ["ExitAddress 9.9.9.9 1 2"]
    ∧ ∃ final, applyLines refLib TorNode.empty (lastGroup fiveLineDocument) = some final
        ∧ [sampleNode, (⟨"", Time.zero, Time.zero, ⟨"9.9.9.9", Time.zero⟩⟩ : TorNode)].getLast?
            = some final :=
  ⟨by decide, by decide,
    (final_flush_unconditional refLib fiveLineDocument _ none
      (by decide : parseDocument refLib fiveLineDocument
        = some (⟨[sampleNode, ⟨"", Time.zero, Time.zero, ⟨"9.9.9.9", Time.zero⟩⟩],
            Time.zero⟩, none))).2.1⟩

/-- C8 (as stated, refuted): the empty document does not yield zero records. -/
theorem parse_empty_document_not_zero_records :
    ¬ ∃ list err, parseDocument refLib [] = some (list, err) ∧ list.Nodes.length = 0 := by
  rintro ⟨list, err, h, hlen⟩
  have e : parseDocument refLib [] = some (⟨[TorNode.empty], Time.zero⟩, none) := rfl
  rw [e] at h
  simp only [Option.some.injEq, Prod.mk.injEq] at h
  rw [← h.1] at hlen
  exact absurd hlen (by decide)

/-- C8 (amended): the empty document parses without error and yields exactly
one record, all of whose fields are empty. -/
theorem parse_empty_document (L : Lib) :
    parseDocument L [] = some (⟨[TorNode.empty], Time.zero⟩, none) := rfl

/-- C9: in a document that parses, the records before the final one are the
records of the 4-line groups before the last, each accumulated from the empty
record over its own lines and kept only when its identifier is non-empty; so
all of them have a non-empty identifier, and a group none of whose lines sets
a non-empty identifier contributes nothing. -/
theorem boundary_discard (L : Lib) (lines : List String) (list : TorNodeList)
    (err : Option String) (h : parseDocument L lines = some (list, err)) :
    (∀ n ∈ list.Nodes.dropLast, n.ExitNode ≠ "")
    ∧ list.Nodes.dropLast = (groups4 lines).dropLast.filterMap
        (fun g => (applyLines L TorNode.empty g).filter (fun n => decide (n.ExitNode ≠ "")))
    ∧ ∀ g ∈ (groups4 lines).dropLast, (∀ line ∈ g, setsNoIdentifier line) →
        (applyLines L TorNode.empty g).filter (fun n => decide (n.ExitNode ≠ "")) = none := by
  obtain ⟨_, _, final, _, hnodes⟩ := parseDocument_groups L lines list err h
  have hdrop : list.Nodes.dropLast = (groups4 lines).dropLast.filterMap
      (fun g => (applyLines L TorNode.empty g).filter (fun n => decide (n.ExitNode ≠ ""))) := by
    rw [hnodes, List.dropLast_concat]; rfl
  refine ⟨?_, hdrop, ?_⟩
  · intro n hn
    rw [hdrop, List.mem_filterMap] at hn
    obtain ⟨g, _, hg⟩ := hn
    cases hrec : applyLines L TorNode.empty g with
    | none => simp [hrec] at hg
    | some m =>
      by_cases hm : m.ExitNode = ""
      · simp [hrec, Option.filter, hm] at hg
      · simp only [hrec, Option.filter, hm, ne_eq, not_false_eq_true, decide_True,
          if_true, Option.some.injEq] at hg
        rw [← hg]; exact hm
  · intro g _ hno
    cases hrec : applyLines L TorNode.empty g with
    | none => rfl
    | some m =>
      have hm := applyLines_no_identifier L g TorNode.empty m rfl hno hrec
      simp [Option.filter, hm]

/-- C9, at a document whose first group names no relay: that group leaves no
record and none of its fields reaches the record of the next group. -/
theorem boundary_discard_witness :
    parseDocument refLib anonymousGroupDocument = some (⟨[sampleNode], Time.zero⟩, none)
    ∧ groups4 anonymousGroupDocument
        = [ [ "Published 2023-01-01 00:00:00", "ExitAddress 7.7.7.7 2023-01-01 02:00:00",
              "", "#" ], sampleDocument ]
    ∧ (∀ n ∈ [sampleNode].dropLast, n.ExitNode ≠ "")
    ∧ [sampleNode].dropLast = (groups4 anonymousGroupDocument).dropLast.filterMap
        (fun g => (applyLines refLib TorNode.empty g).filter
          (fun n => decide (n.ExitNode ≠ "")))
    ∧ (applyLines refLib TorNode.empty
          [ "Published 2023-01-01 00:00:00", "ExitAddress 7.7.7.7 2023-01-01 02:00:00",
            "", "#" ]).filter (fun n => decide (n.ExitNode ≠ "")) = none :=
  have h := boundary_discard refLib anonymousGroupDocument ⟨[sampleNode], Time.zero⟩ none
    (by decide)
  ⟨by decide, by decide, h.1, h.2.1, h.2.2 _ (by decide) (by decide)⟩

/-- C10: a `Published`, `LastStatus` or `ExitAddress` line with enough tokens
whose timestamp tokens `time.Parse` rejects does not fail: its time field
becomes the zero time, and for `ExitAddress` the address is the second token. -/
theorem tolerant_timestamps (L : Lib) (node : TorNode) (line p1 p2 p3 : String)
    (more : List String) :
    (Split line = "Published" :: p1 :: p2 :: more → L.timeParse (p1 ++ " " ++ p2) = none →
        dispatch L node line = some { node with Published := Time.zero })
    ∧ (Split line = "LastStatus" :: p1 :: p2 :: more → L.timeParse (p1 ++ " " ++ p2) = none →
        dispatch L node line = some { node with LastStatus := Time.zero })
    ∧ (Split line = "ExitAddress" :: p1 :: p2 :: p3 :: more →
        L.timeParse (p2 ++ " " ++ p3) = none →
        dispatch L node line = some { node with ExitAddress := ⟨p1, Time.zero⟩ }) := by
  refine ⟨?_, ?_, ?_⟩
  · intro hs ht
    rw [dispatch_published L node line p1 p2 more hs]; simp [parseTime, ht]
  · intro hs ht
    rw [dispatch_lastStatus L node line p1 p2 more hs]; simp [parseTime, ht]
  · intro hs ht
    rw [dispatch_exitAddress L node line p1 p2 p3 more hs]; simp [parseTime, ht]

/-- C10, at three lines with unreadable timestamps. -/
theorem tolerant_timestamps_witness :
    dispatch refLib sampleNode "Published 2023-13-01 00:00:00"
        = some { sampleNode with Published := Time.zero }
    ∧ dispatch refLib sampleNode "LastStatus yesterday noon"
        = some { sampleNode with LastStatus := Time.zero }
    ∧ dispatch refLib sampleNode "ExitAddress 9.9.9.9 2023-01-01 25:00:00 UTC"
        = some { sampleNode with ExitAddress := ⟨"9.9.9.9", Time.zero⟩ } :=
  ⟨(tolerant_timestamps refLib sampleNode "Published 2023-13-01 00:00:00"
      "2023-13-01" "00:00:00" "" []).1 (by decide) (by decide),
    (tolerant_timestamps refLib sampleNode "LastStatus yesterday noon"
      "yesterday" "noon" "" []).2.1 (by decide) (by decide),
    (tolerant_timestamps refLib sampleNode "ExitAddress 9.9.9.9 2023-01-01 25:00:00 UTC"
      "9.9.9.9" "2023-01-01" "25:00:00" ["UTC"]).2.2 (by decide) (by decide)⟩

/-- C11: in any document, replacing a line whose first token is none of the
four tags by another such line (the empty line is one) leaves the result of
the parse unchanged; such a line leaves the record under construction as it
is and never has too few tokens. -/
theorem unknown_lines_ignored (L : Lib) (lines : List String) (j : Nat) (l1 l2 : String)
    (hj : lines[j]? = some l1) (h1 : unknownTag l1) (h2 : unknownTag l2) :
    parseDocument L (lines.set j l2) = parseDocument L lines
    ∧ (∀ node, dispatch L node l1 = some node)
    ∧ ¬ tooFewTokens l1
    ∧ unknownTag "" := by
  refine ⟨?_, fun node => dispatch_unknownTag L node l1 h1, ?_, by decide⟩
  · have hs := scanLoop_set_unknown L l2 h2 lines j 0 TorNode.empty []
      (fun l hl => by rw [hj] at hl; cases hl; exact h1)
    simp only [parseDocument, fetchList, hs]
  · rw [← dispatch_eq_none_iff L TorNode.empty l1, dispatch_unknownTag L _ l1 h1]
    simp

/-- C11, at the fourth line `#` of a document, replaced by the empty line. -/
theorem unknown_lines_ignored_witness :
    anonymousGroupDocument[3]? = some "#"
    ∧ anonymousGroupDocument.set 3 ""
        = [ "Published 2023-01-01 00:00:00", "ExitAddress 7.7.7.7 2023-01-01 02:00:00",
            "", "" ] ++ sampleDocument
    ∧ parseDocument refLib (anonymousGroupDocument.set 3 "")
        = parseDocument refLib anonymousGroupDocument
    ∧ (∀ node, dispatch refLib node "#" = some node) :=
  have h := unknown_lines_ignored refLib anonymousGroupDocument 3 "#" "" (by decide)
    (by decide) (by decide)
  ⟨by decide, by decide, h.1, h.2.1⟩

/-- C12: a request processed while the list is non-empty leaves the whole
`TorBlock`, and so the list and its `Updated`, as it was, and `fetchList` is not
called, whether the request is blocked or allowed. -/
theorem process_read_only (L : Lib) (t : TorBlock) (resp : Response) (r : Request)
    (h : t.NodeList.Nodes ≠ []) :
    ∃ s, process L t resp r = some s ∧ s.t = t ∧ s.t.NodeList = t.NodeList
      ∧ Event.fetch ∉ s.events := by
  rw [process_of_nonempty L t resp r h]
  by_cases hg : isGoodHost L (hostOf L r) t.NodeList.Nodes = false
  · exact ⟨_, if_pos hg, rfl, rfl, by simp⟩
  · exact ⟨_, if_neg hg, rfl, rfl, by simp⟩

/-- C12, at the sample list, for a blocked and for an allowed request. -/
theorem process_read_only_witness :
    loadedTorBlock.NodeList.Nodes ≠ []
    ∧ process refLib loadedTorBlock (.body [] none) listedRequest
        = some ⟨loadedTorBlock, [Event.badHost], some "Bad host name: example.org"⟩
    ∧ process refLib loadedTorBlock (.body [] none) unlistedRequest
        = some ⟨loadedTorBlock, [], none⟩
    ∧ ∃ s, process refLib loadedTorBlock (.body [] none) listedRequest = some s
        ∧ s.t = loadedTorBlock ∧ s.t.NodeList = loadedTorBlock.NodeList
        ∧ Event.fetch ∉ s.events :=
  ⟨by decide, by decide, by decide,
    process_read_only refLib loadedTorBlock (.body [] none) listedRequest (by decide)⟩

/-- C13 (the code at the failing input): a first tick fetches the sample
document and populates the list; a second tick whose fetch fails leaves the
list empty; the request that follows calls `fetchList` again. -/
theorem on_demand_fetch_after_populated :
    runSteps refLib newTorBlock [Step.tick (.body sampleDocument none)]
        = some (loadedTorBlock, [[]])
    ∧ runSteps refLib newTorBlock
        [Step.tick (.body sampleDocument none), Step.tick (.transportError "timeout")]
        = some (newTorBlock, [[], []])
    ∧ runSteps refLib newTorBlock
        [ Step.tick (.body sampleDocument none), Step.tick (.transportError "timeout"),
          Step.request (.body sampleDocument none) unlistedRequest ]
        = some (loadedTorBlock, [[], [], [Event.fetch, Event.inner]]) := by
  decide

/-- C14 (the code at the failing input): the list returned by a successful
`fetchList` of the sample document has the zero time in `Updated`; no time of
fetch is recorded. -/
theorem fetchList_leaves_updated_zero :
    fetchList refLib (.body sampleDocument none) = some (⟨[sampleNode], Time.zero⟩, none)
    ∧ (⟨[sampleNode], Time.zero⟩ : TorNodeList).Updated = Time.zero
    ∧ (fetchList refLib (.body sampleDocument none)).map (fun p => p.1.Updated)
        = some Time.zero :=
  ⟨by decide, rfl, by decide⟩

/-- C15 (as stated, refuted): for `UpdateFrequency = 9223372037`, which is
positive, the product wraps around to a negative count of nanoseconds. -/
theorem frequency_wraps_around :
    (0 : Int) < 9223372037 ∧ (9223372037 : Int) < 2 ^ 63
    ∧ Run.frequency ⟨9223372037, ""⟩ = -9223372036709551616
    ∧ ¬ 0 < Run.frequency ⟨9223372037, ""⟩
    ∧ Run.frequency ⟨9223372037, ""⟩ ≠ 9223372037 * Second := by
  decide

/-- C15 (amended): the period is exactly `UpdateFrequency` seconds for every
`0 < UpdateFrequency <= 9223372036` and exactly 3600 seconds for every
`UpdateFrequency <= 0`; in both ranges the count of nanoseconds is positive. -/
theorem frequency_in_range (opt : Options) :
    (0 < opt.UpdateFrequency → opt.UpdateFrequency ≤ 9223372036 →
        Run.frequency opt = opt.UpdateFrequency * Second ∧ 0 < Run.frequency opt)
    ∧ (opt.UpdateFrequency ≤ 0 →
        Run.frequency opt = 3600 * Second ∧ 0 < Run.frequency opt) := by
  constructor
  · intro h1 h2
    have e : Run.frequency opt = opt.UpdateFrequency * Second := by
      simp only [Run.frequency, h1, if_true, Second]
      exact wrapInt64_of_range _ (by omega) (by omega)
    rw [e]
    exact ⟨rfl, by simp only [Second]; omega⟩
  · intro h
    have hn : ¬ opt.UpdateFrequency > 0 := by omega
    have e : Run.frequency opt = 3600 * Second := by
      simp only [Run.frequency, hn, if_false, Second]
      exact wrapInt64_of_range _ (by omega) (by omega)
    rw [e]
    exact ⟨rfl, by decide⟩

/-- C15 (amended), at 60 seconds, at the largest exact value and at zero. -/
theorem frequency_in_range_witness :
    Run.frequency ⟨60, ""⟩ = 60 * Second
    ∧ (Run.frequency ⟨9223372036, ""⟩ = 9223372036 * Second
        ∧ 0 < Run.frequency ⟨9223372036, ""⟩)
    ∧ (Run.frequency ⟨0, ""⟩ = 3600 * Second ∧ 0 < Run.frequency ⟨0, ""⟩) :=
  ⟨((frequency_in_range ⟨60, ""⟩).1 (by decide) (by decide)).1,
    (frequency_in_range ⟨9223372036, ""⟩).1 (by decide) (by decide),
    (frequency_in_range ⟨0, ""⟩).2 (by decide)⟩

/-- C16: with a non-nil continuation `HandlerFuncWithNext` does what the
handler of `Handler(next)` does: the same calls, the same `TorBlock` left, the
same panic; with a nil continuation and a request that `process` lets
through, it calls neither the rejection handler nor any inner handler. -/
theorem handler_forms_agree (L : Lib) (t : TorBlock) (resp : Response) (r : Request) :
    HandlerFuncWithNext L t resp r true = Handler L t resp r
    ∧ ∀ s, process L t resp r = some s → s.err = none →
        HandlerFuncWithNext L t resp r false = some (s.t, s.events)
        ∧ Event.badHost ∉ s.events ∧ Event.inner ∉ s.events := by
  constructor
  · unfold HandlerFuncWithNext Handler
    cases process L t resp r with
    | none => rfl
    | some s => cases s.err <;> rfl
  · intro s hs he
    refine ⟨by simp [HandlerFuncWithNext, hs, he], ?_⟩
    rcases process_events_of_no_error L t resp r s hs he with e | e <;> simp [e]

/-- C16, at an unlisted request on the sample list, and at a fresh `TorBlock`
whose fetch fails. -/
theorem handler_forms_agree_witness :
    HandlerFuncWithNext refLib loadedTorBlock (.body [] none) listedRequest true
        = some (loadedTorBlock, [Event.badHost])
    ∧ Handler refLib loadedTorBlock (.body [] none) listedRequest
        = some (loadedTorBlock, [Event.badHost])
    ∧ HandlerFuncWithNext refLib loadedTorBlock (.body [] none) unlistedRequest true
        = some (loadedTorBlock, [Event.inner])
    ∧ HandlerFuncWithNext refLib loadedTorBlock (.body [] none) unlistedRequest false
        = some (loadedTorBlock, [])
    ∧ HandlerFuncWithNext refLib newTorBlock (.transportError "timeout") unlistedRequest false
        = some (newTorBlock, [Event.fetch]) :=
  ⟨by decide, by decide, by decide,
    ((handler_forms_agree refLib loadedTorBlock (.body [] none) unlistedRequest).2
      ⟨loadedTorBlock, [], none⟩ (by decide) rfl).1,
    ((handler_forms_agree refLib newTorBlock (.transportError "timeout") unlistedRequest).2
      ⟨newTorBlock, [Event.fetch], none⟩ (by decide) rfl).1⟩

/-- C18: in a document that parses, every output record is the record
accumulated from the empty record over one 4-line group of the document (the
lines after the last boundary for the final record); its address is empty or
the second token of an `ExitAddress` line of the document, and its identifier
is empty or the second token of an `ExitNode` line of that same group. -/
theorem parser_sound (L : Lib) (lines : List String) (list : TorNodeList)
    (err : Option String) (h : parseDocument L lines = some (list, err)) :
    ∀ n ∈ list.Nodes,
      (n.ExitAddress.IPAddress = "" ∨
        ∃ line ∈ lines, ∃ more,
          Split line = "ExitAddress" :: n.ExitAddress.IPAddress :: more)
      ∧ ∃ g, (g ∈ groups4 lines ∨ (lines = [] ∧ g = []))
          ∧ applyLines L TorNode.empty g = some n
          ∧ (n.ExitNode = "" ∨
              ∃ line ∈ g, ∃ more, Split line = "ExitNode" :: n.ExitNode :: more) := by
  obtain ⟨_, _, final, hfin, hnodes⟩ := parseDocument_groups L lines list err h
  have key : ∀ (g : List String) (n : TorNode), (g ∈ groups4 lines ∨ (lines = [] ∧ g = [])) →
      applyLines L TorNode.empty g = some n →
      (n.ExitAddress.IPAddress = "" ∨
        ∃ line ∈ lines, ∃ more,
          Split line = "ExitAddress" :: n.ExitAddress.IPAddress :: more)
      ∧ ∃ g, (g ∈ groups4 lines ∨ (lines = [] ∧ g = []))
          ∧ applyLines L TorNode.empty g = some n
          ∧ (n.ExitNode = "" ∨
              ∃ line ∈ g, ∃ more, Split line = "ExitNode" :: n.ExitNode :: more) := by
    intro g n hg hn
    obtain ⟨hid, hip⟩ := applyLines_sources L g TorNode.empty n hn
    refine ⟨?_, g, hg, hn, hid⟩
    rcases hip with e | ⟨line, hl, more, hs⟩
    · exact Or.inl e
    · rcases hg with hg | ⟨_, hg⟩
      · exact Or.inr ⟨line, mem_of_mem_groups4 lines g line hg hl, more, hs⟩
      · rw [hg] at hl; simp at hl
  intro n hn
  rw [hnodes, List.mem_append, List.mem_singleton] at hn
  rcases hn with hn | hn
  · rw [List.mem_filterMap] at hn
    obtain ⟨g, hg, hrec⟩ := hn
    have hg2 : g ∈ groups4 lines := List.mem_of_mem_dropLast hg
    cases hr : groupRecord L g with
    | none => simp [boundaryRecord, hr] at hrec
    | some m =>
      have hm : m = n := by
        simp only [boundaryRecord, hr, Option.filter] at hrec
        split_ifs at hrec
        simpa using hrec
      subst hm
      exact key g m (Or.inl hg2) hr
  · subst hn
    by_cases hl : lines = []
    · subst hl
      exact key [] n (Or.inr ⟨rfl, rfl⟩) (by simpa [lastGroup] using hfin)
    · exact key (lastGroup lines) n (Or.inl (lastGroup_mem_groups4 lines hl)) hfin

/-- C18, at the sample document: its one record takes identifier and address
from the first and the fourth line. -/
theorem parser_sound_witness :
    parseDocument refLib sampleDocument = some (⟨[sampleNode], Time.zero⟩, none)
    ∧ Split "ExitNode ABC123" = ["ExitNode", "ABC123"]
    ∧ Split "ExitAddress 1.2.3.4 2023-01-01 02:00:00"
        = ["ExitAddress", "1.2.3.4", "2023-01-01", "02:00:00"]
    ∧ ∀ n ∈ [sampleNode],
      (n.ExitAddress.IPAddress = "" ∨
        ∃ line ∈ sampleDocument, ∃ more,
          Split line = "ExitAddress" :: n.ExitAddress.IPAddress :: more)
      ∧ ∃ g, (g ∈ groups4 sampleDocument ∨ (sampleDocument = [] ∧ g = []))
          ∧ applyLines refLib TorNode.empty g = some n
          ∧ (n.ExitNode = "" ∨
              ∃ line ∈ g, ∃ more, Split line = "ExitNode" :: n.ExitNode :: more) :=
  ⟨by decide, by decide, by decide,
    parser_sound refLib sampleDocument ⟨[sampleNode], Time.zero⟩ none (by decide)⟩

/-- C19 (as stated, refuted): a fresh `TorBlock` holds no record, so none with
an empty address, and the `RemoteAddr` of the request cannot be split; the
on-demand fetch of the empty document leaves the one blank record, and the
request is blocked by it, not allowed. -/
theorem empty_list_request_blocked_after_fetch :
    newTorBlock.NodeList.Nodes = []
    ∧ refLib.splitHostPort portlessRequest.RemoteAddr = none
    ∧ hostOf refLib portlessRequest = ""
    ∧ fetchList refLib (.body [] none) = some (⟨[TorNode.empty], Time.zero⟩, none)
    ∧ process refLib newTorBlock (.body [] none) portlessRequest
        = some ⟨blankTorBlock, [Event.fetch, Event.badHost],
            some "Bad host name: example.org"⟩
    ∧ Handler refLib newTorBlock (.body [] none) portlessRequest
        ≠ some (blankTorBlock, [Event.fetch, Event.inner]) := by
  decide

/-- C19 (amended): let `strings.EqualFold` hold between two empty strings and fail
between a non-empty and the empty string, and let `net.SplitHostPort` fail on
the `RemoteAddr` of the request. If the list holds a record with an empty
address, `process` blocks the request and the rejection handler alone is
called; if the list is non-empty and holds no such record, the request is
allowed and the inner handler alone is called. In general the request is
blocked exactly when the list that `process` consults, after its on-demand
fetch if it makes one, holds a record with an empty address. -/
theorem unsplittable_host_matches_empty_address (L : Lib) (t : TorBlock) (resp : Response)
    (r : Request) (hfold0 : L.equalFold "" "" = true)
    (hfold1 : ∀ s, s ≠ "" → L.equalFold s "" = false)
    (hsplit : L.splitHostPort r.RemoteAddr = none) :
    hostOf L r = ""
    ∧ ((∃ n ∈ t.NodeList.Nodes, n.ExitAddress.IPAddress = "") →
        process L t resp r = some ⟨t, [Event.badHost], some ("Bad host name: " ++ r.Host)⟩
        ∧ Handler L t resp r = some (t, [Event.badHost]))
    ∧ (t.NodeList.Nodes ≠ [] → (∀ n ∈ t.NodeList.Nodes, n.ExitAddress.IPAddress ≠ "") →
        process L t resp r = some ⟨t, [], none⟩
        ∧ Handler L t resp r = some (t, [Event.inner]))
    ∧ ∀ s, process L t resp r = some s →
        (s.err ≠ none ↔ ∃ n ∈ s.t.NodeList.Nodes, n.ExitAddress.IPAddress = "") := by
  have hhost : hostOf L r = "" := by simp [hostOf, hsplit]
  have hiff := isGoodHost_empty_host L hfold0 hfold1
  refine ⟨hhost, ?_, ?_, ?_⟩
  · intro hex
    have hne : t.NodeList.Nodes ≠ [] := by
      obtain ⟨n, hn, _⟩ := hex
      exact List.ne_nil_of_mem hn
    have hg : isGoodHost L (hostOf L r) t.NodeList.Nodes = false := by
      rw [hhost]; exact (hiff _).mpr hex
    have hp : process L t resp r
        = some ⟨t, [Event.badHost], some ("Bad host name: " ++ r.Host)⟩ := by
      rw [process_of_nonempty L t resp r hne, if_pos hg]
    exact ⟨hp, by simp [Handler, hp]⟩
  · intro hne hall
    have hg : ¬ isGoodHost L (hostOf L r) t.NodeList.Nodes = false := by
      rw [hhost, hiff]
      rintro ⟨n, hn, he⟩
      exact hall n hn he
    have hp : process L t resp r = some ⟨t, [], none⟩ := by
      rw [process_of_nonempty L t resp r hne, if_neg hg]
    exact ⟨hp, by simp [Handler, hp]⟩
  · intro s hs
    unfold process at hs
    rw [hhost] at hs
    by_cases h0 : t.NodeList.Nodes.length = 0
    · simp only [h0, if_true] at hs
      cases hf : fetchList L resp with
      | none => simp [hf] at hs
      | some p =>
        obtain ⟨list, e⟩ := p
        simp only [hf] at hs
        split_ifs at hs with hc
        · simp only [Option.some.injEq] at hs
          rw [← hs]
          simpa using (hiff _).mp hc.2
        · simp only [Option.some.injEq] at hs
          rw [← hs]
          simp only [ne_eq, not_true_eq_false, false_iff]
          intro hex
          apply hc
          have hex2 : ∃ n ∈ list.Nodes, n.ExitAddress.IPAddress = "" := hex
          refine ⟨?_, (hiff _).mpr hex2⟩
          obtain ⟨n, hn, _⟩ := hex2
          exact List.length_pos.mpr (List.ne_nil_of_mem hn)
    · simp only [h0, if_false] at hs
      split_ifs at hs with hc
      · simp only [Option.some.injEq] at hs
        rw [← hs]
        simpa using (hiff _).mp hc.2
      · simp only [Option.some.injEq] at hs
        rw [← hs]
        simp only [ne_eq, not_true_eq_false, false_iff]
        intro hex
        apply hc
        refine ⟨Nat.pos_of_ne_zero h0, (hiff _).mpr hex⟩

/-- C19 (amended), at a request whose `RemoteAddr` has no port: blocked by the list
that holds the one record of the empty document, allowed by the sample list,
and blocked when a fresh `TorBlock` fetches the empty document on demand. -/
theorem unsplittable_host_matches_empty_address_witness :
    refLib.splitHostPort portlessRequest.RemoteAddr = none
    ∧ (process refLib blankTorBlock (.body [] none) portlessRequest
          = some ⟨blankTorBlock, [Event.badHost], some "Bad host name: example.org"⟩
        ∧ Handler refLib blankTorBlock (.body [] none) portlessRequest
          = some (blankTorBlock, [Event.badHost]))
    ∧ (process refLib loadedTorBlock (.body [] none) portlessRequest
          = some ⟨loadedTorBlock, [], none⟩
        ∧ Handler refLib loadedTorBlock (.body [] none) portlessRequest
          = some (loadedTorBlock, [Event.inner]))
    ∧ Handler refLib newTorBlock (.body [] none) portlessRequest
        = some (blankTorBlock, [Event.fetch, Event.badHost]) :=
  ⟨by decide,
    (unsplittable_host_matches_empty_address refLib blankTorBlock (.body [] none)
      portlessRequest (by decide) refEqualFold_empty (by decide)).2.1
      ⟨TorNode.empty, by decide, by decide⟩,
    (unsplittable_host_matches_empty_address refLib loadedTorBlock (.body [] none)
      portlessRequest (by decide) refEqualFold_empty (by decide)).2.2.1
      (by decide) (by decide),
    by decide⟩

end Torblock
